import Mathlib

/-!
Verification of the LAN peer-presence monitor (hostmon).

Shallow embedding of the core of the repository: the participant registry
(src/monitor.cpp: report_participant, expire_participants), the notifier
(src/comms.cpp: send_update), the announcer and listener
(src/unnamed/part_005: create_advertisement, receive_thread), and the
JSON payload schema used on the multicast channel.

Timestamps are std::uint64_t milliseconds; we model them as Nat with the
wrap-around of the 64-bit subtraction made explicit where the code relies
on it (expire_participants).
-/

/-- The modulus of std::uint64_t arithmetic. -/
def U64 : Nat := 18446744073709551616

/-- Unsigned 64-bit subtraction a - b as computed by C++ on uint64_t
operands (wraps modulo 2^64).  Inputs are reduced mod 2^64 first, which is
the identity on in-range timestamps. -/
def u64sub (a b : Nat) : Nat := (a % U64 + (U64 - b % U64)) % U64

/-- One announcement as built by the sender and decoded by the receiver:
the seven self-description fields of the multicast payload
(src/unnamed/part_005 create_advertisement, spec section 6).  first_seen and
last_seen are not part of an announcement; they are receiver-assigned. -/
structure Announcement where
  id : String
  address : String
  active : Bool
  provides : List String
  operating_system : String
  release : String
  architecture : String
deriving Repr, DecidableEq

/-- One stored registry entry: the announcement fields plus the two
receiver-assigned timestamps (src/monitor.h class participant; in
src/monitor.cpp the stored json object is the incoming announcement with
first_seen and last_seen added). -/
structure PeerRecord where
  id : String
  address : String
  active : Bool
  provides : List String
  operating_system : String
  release : String
  architecture : String
  first_seen : Nat
  last_seen : Nat
deriving Repr, DecidableEq

/-- The record stored on first sighting: the incoming announcement with
first_seen = last_seen = ts (src/monitor.cpp lines 90-92). -/
def storeAnnouncement (a : Announcement) (ts : Nat) : PeerRecord :=
  { id := a.id
    address := a.address
    active := a.active
    provides := a.provides
    operating_system := a.operating_system
    release := a.release
    architecture := a.architecture
    first_seen := ts
    last_seen := ts }

/-- The unicast notification payload built by send_update
(src/comms.cpp lines 16-20): address, status, provider_architecture,
timestamp. -/
structure UpdateMsg where
  address : String
  status : Int
  provider_architecture : String
  timestamp : Nat
deriving Repr, DecidableEq

/-- send_update(service_ip, op, arch) builds the notification message; its
timestamp field is a fresh get_timestamp() call, passed here as now
(src/comms.cpp send_update). -/
def send_update (service_ip : String) (op : Int) (arch : String) (now : Nat) : UpdateMsg :=
  { address := service_ip
    status := op
    provider_architecture := arch
    timestamp := now }

/-- The registry: std::map from id to stored record
(src/monitor.cpp participant_map), modelled as an association list. -/
abbrev Registry := List (String × PeerRecord)

/-- Lookup by id (std::map::find / contains). -/
def mapFind (reg : Registry) (id : String) : Option PeerRecord :=
  match reg with
  | [] => none
  | (k, v) :: rest => if k = id then some v else mapFind rest id

/-- Insert-or-assign by id (participant_map[id] = w). -/
def mapInsert (reg : Registry) (id : String) (r : PeerRecord) : Registry :=
  match reg with
  | [] => [(id, r)]
  | (k, v) :: rest => if k = id then (k, r) :: rest else (k, v) :: mapInsert rest id r

/-- The keys of the registry. -/
def regKeys (reg : Registry) : List String := reg.map Prod.fst

/-- Key uniqueness: at most one record per id. -/
def RegWF (reg : Registry) : Prop := (regKeys reg).Nodup

/-- Return status of report_participant (src/monitor.h enum). -/
inductive ParticipantStatus where
  | PARTICIPANT_EXISTS
  | PARTICIPANT_ADDED
deriving Repr, DecidableEq

/-- report_participant (src/monitor.cpp lines 69-103): ts is the single
get_timestamp() taken at entry.  If the id is present, the existing record
is copied, only its last_seen is set to ts, and it is written back; no
message is sent; status PARTICIPANT_EXISTS.  If absent, the incoming
announcement is stored with first_seen = last_seen = ts, one
send_update(address, 1, architecture) is emitted, status PARTICIPANT_ADDED.
Returns (status, new registry, emitted notifications). -/
def report_participant (ts : Nat) (a : Announcement) (reg : Registry) :
    ParticipantStatus × Registry × List UpdateMsg :=
  match mapFind reg a.id with
  | some w =>
      (ParticipantStatus.PARTICIPANT_EXISTS,
       mapInsert reg a.id { w with last_seen := ts },
       [])
  | none =>
      (ParticipantStatus.PARTICIPANT_ADDED,
       mapInsert reg a.id (storeAnnouncement a ts),
       [send_update a.address 1 a.architecture ts])

/-- The staleness threshold: 600 ms (src/monitor.cpp line 130, age > 600). -/
def staleness_threshold : Nat := 600

/-- Whether a stored record counts as stale at scan time: the uint64
subtraction current_timestamp - last_seen exceeds the threshold
(src/monitor.cpp line 130). -/
def staleb (now : Nat) (p : PeerRecord) : Bool :=
  staleness_threshold < u64sub now p.last_seen

/-- expire_participants (src/monitor.cpp lines 119-148): current_timestamp
is captured once before the loop; every record whose uint64 age exceeds the
threshold is erased and produces one send_update(address, 1, architecture);
the rest are kept.  Returns (new registry, emitted notifications). -/
def expire_participants (now : Nat) (reg : Registry) : Registry × List UpdateMsg :=
  match reg with
  | [] => ([], [])
  | (id, p) :: rest =>
      let (reg2, msgs) := expire_participants now rest
      if staleb now p then
        (reg2, send_update p.address 1 p.architecture now :: msgs)
      else
        ((id, p) :: reg2, msgs)

/-- A JSON value, as used for both the multicast announcement payload and
the notification payload (nlohmann::json in the code).  Objects keep the
insertion order of their keys.  null is nlohmann's default-constructed
value, written by assignments such as j[k] = {}. -/
inductive Json where
  | null
  | str (s : String)
  | num (n : Nat)
  | bool (b : Bool)
  | arr (elems : List Json)
  | obj (fields : List (String × Json))

/-- push_back of nlohmann::json: appending to an array appends an element,
and appending to null first turns the value into a one-element array
(the conversion create_advertisement relies on at part_005 line 50); on
any other value nlohmann throws, left as the identity here since no code
path reaches it. -/
def jsonPushBack (j v : Json) : Json :=
  match j with
  | Json.null => Json.arr [v]
  | Json.arr elems => Json.arr (elems ++ [v])
  | _ => j

/-- Field access j[k] on a JSON object (read-only view: none when the key
is absent or the value is not an object). -/
def jsonGet (j : Json) (k : String) : Option Json :=
  match j with
  | Json.obj fields =>
      match fields.find? (fun kv => kv.1 = k) with
      | some kv => some kv.2
      | none => none
  | _ => none

/-- The keys of a JSON object, in insertion order. -/
def jsonKeys (j : Json) : List String :=
  match j with
  | Json.obj fields => fields.map Prod.fst
  | _ => []

/-- Serialisation of an announcement record to its JSON payload: the seven
fields the sender writes (src/unnamed/part_005 create_advertisement writes
exactly these keys; transmit_thread then dumps this object). -/
def encodeAnnouncement (a : Announcement) : Json :=
  Json.obj
    [("id", Json.str a.id),
     ("address", Json.str a.address),
     ("active", Json.bool a.active),
     ("provides", Json.arr (a.provides.map Json.str)),
     ("operating_system", Json.str a.operating_system),
     ("release", Json.str a.release),
     ("architecture", Json.str a.architecture)]

/-- Extraction of a string from a JSON field (get of std::string: fails on
a missing field or a non-string value). -/
def asStr (j : Option Json) : Option String :=
  match j with
  | some (Json.str s) => some s
  | _ => none

/-- Extraction of a boolean from a JSON field. -/
def asBool (j : Option Json) : Option Bool :=
  match j with
  | some (Json.bool b) => some b
  | _ => none

/-- Extraction of a list of strings from a JSON array element-wise. -/
def strListOfJson (l : List Json) : Option (List String) :=
  match l with
  | [] => some []
  | Json.str s :: rest =>
      match strListOfJson rest with
      | some ss => some (s :: ss)
      | none => none
  | _ :: _ => none

/-- Extraction of a list of strings from a JSON field. -/
def asStrList (j : Option Json) : Option (List String) :=
  match j with
  | some (Json.arr l) => strListOfJson l
  | _ => none

/-- Decoding of a received payload back into an announcement record, per
the announcement schema (spec section 6): each of the seven fields is read
back typed; any missing or ill-typed field fails the decode. -/
def decodeAnnouncement (j : Json) : Option Announcement :=
  match asStr (jsonGet j "id"), asStr (jsonGet j "address"),
        asBool (jsonGet j "active"), asStrList (jsonGet j "provides"),
        asStr (jsonGet j "operating_system"), asStr (jsonGet j "release"),
        asStr (jsonGet j "architecture") with
  | some id, some address, some active, some provides,
    some os, some release, some arch =>
      some { id := id, address := address, active := active,
             provides := provides, operating_system := os,
             release := release, architecture := arch }
  | _, _, _, _, _, _, _ => none

/-- Platform metadata from uname (utilities.h class system_info). -/
structure SystemInfo where
  sysname : String
  nodename : String
  release : String
  version : String
  machine : String
deriving Repr, DecidableEq

/-- One element of the configured provides list; the code keeps the entry
only when it contains a service key (part_005 lines 44-50). -/
structure ProvidesEntry where
  service : Option String
deriving Repr, DecidableEq

/-- The startup configuration (config.cpp / spec sections 4.2 and 6): id,
the provides descriptors, and the configured active flag the spec names as
an input of the announcement build. -/
structure Config where
  id : String
  provides : List ProvidesEntry
  active : Bool
deriving Repr, DecidableEq

/-- create_advertisement (src/unnamed/part_005 lines 26-59): builds the
announcement JSON object from the configuration, the interface address and
the uname metadata.  The active field is written as the literal true.  The
provides field starts as null (j with key provides = empty braces, line 41)
and one push_back runs for the service value of every configured entry
that has one (lines 43-50), so it stays null when no entry carries a
service key and becomes the array of services otherwise.  No first_seen or
last_seen key is ever written. -/
def create_advertisement (cfg : Config) (sys : SystemInfo) (address : String) : Json :=
  Json.obj
    [("id", Json.str cfg.id),
     ("address", Json.str address),
     ("active", Json.bool true),
     ("provides",
       (cfg.provides.filterMap ProvidesEntry.service).foldl
         (fun pj s => jsonPushBack pj (Json.str s)) Json.null),
     ("operating_system", Json.str sys.sysname),
     ("release", Json.str sys.release),
     ("architecture", Json.str sys.machine)]

/-- One iteration of the receive loop of receive_thread
(src/unnamed/part_005 lines 127-138).  The datagram is given as the result
of attempting json::parse on its bytes: none models unparseable bytes.
json::parse throws on failure and receive_thread has no handler, so the
exception propagates out of the loop: this is the error branch.  The
decode branch is a conservative model of the ingest path: report_participant
itself reads only id, address and architecture (each with get of
std::string, which throws on a missing or non-string field), so a
parseable datagram missing only the other four fields would still be
stored by the code while decodeAnnouncement rejects it; only the faithful
parse-failure branch is relied on by any theorem.  On success the parsed
announcement is applied to the registry via report_participant. -/
def receive_step (ts : Nat) (reg : Registry) (parsed : Option Json) :
    Except String (ParticipantStatus × Registry × List UpdateMsg) :=
  match parsed with
  | none => Except.error "json parse exception propagates out of receive_thread"
  | some x =>
      match decodeAnnouncement x with
      | some a => Except.ok (report_participant ts a reg)
      | none => Except.error "type exception in report_participant field access"

/-- The kinds of primitive actions the monitor performs, for the lock
discipline model. -/
inductive MonAction where
  | lockAcquire
  | lockRelease
  | mapWrite
  | consoleOut
  | netSend
deriving Repr, DecidableEq

/-- One executed action together with whether the participant mutex is
held while it runs. -/
structure MonStep where
  act : MonAction
  lockHeld : Bool
deriving Repr, DecidableEq

/-- The action trace of report_participant (src/monitor.cpp lines 69-103)
for a given branch: the lock_guard is taken at function scope, so in the
insert branch (isNew = true) the map write, the console print and the
send_update all run while the mutex is held; the lock is released when the
function returns. -/
def report_participant_trace (isNew : Bool) : List MonStep :=
  MonStep.mk MonAction.lockAcquire false ::
  (if isNew then
    [MonStep.mk MonAction.mapWrite true,
     MonStep.mk MonAction.consoleOut true,
     MonStep.mk MonAction.netSend true,
     MonStep.mk MonAction.lockRelease true]
  else
    [MonStep.mk MonAction.mapWrite true,
     MonStep.mk MonAction.lockRelease true])

/-- The action trace of one loop iteration of expire_participants
(src/monitor.cpp lines 119-148) for a given staleness outcome: the
lock_guard is declared in the loop body, so in the eviction branch the
console print, the send_update and the map erase all run while the mutex
is held; the lock is released at the end of the iteration. -/
def expire_iteration_trace (isStale : Bool) : List MonStep :=
  MonStep.mk MonAction.lockAcquire false ::
  (if isStale then
    [MonStep.mk MonAction.consoleOut true,
     MonStep.mk MonAction.netSend true,
     MonStep.mk MonAction.mapWrite true,
     MonStep.mk MonAction.lockRelease true]
  else
    [MonStep.mk MonAction.lockRelease true])

/-- An operation applied to the registry: an accepted announcement
(listener ingest) or a reaper scan. -/
inductive MonOp where
  | announce (a : Announcement)
  | scan
deriving Repr

/-- Apply one timestamped operation to the registry, discarding status and
notifications. -/
def applyOp (reg : Registry) (op : MonOp × Nat) : Registry :=
  match op with
  | (MonOp.announce a, ts) => (report_participant ts a reg).2.1
  | (MonOp.scan, now) => (expire_participants now reg).1

/-- Run a timestamped operation sequence from the empty registry. -/
def runOps (ops : List (MonOp × Nat)) : Registry :=
  ops.foldl applyOp []

/-- The timestamps of an operation sequence are non-decreasing (the wall
clock read by get_timestamp is monotone across the run). -/
def Chrono (ops : List (MonOp × Nat)) : Prop :=
  (ops.map Prod.snd).Chain' (· ≤ ·)

/-- The registry invariant (spec section 3): at most one record per id and
first_seen at most last_seen in every stored record.  Eviction removes the
entry from the list outright, so no tombstone state is representable. -/
def Invariant (reg : Registry) : Prop :=
  RegWF reg ∧ ∀ kv ∈ reg, (Prod.snd kv).first_seen ≤ (Prod.snd kv).last_seen

/-- Upper bound on every stored last_seen, used to thread clock
monotonicity through a run. -/
def regLastBelow (reg : Registry) (t : Nat) : Prop :=
  ∀ kv ∈ reg, (Prod.snd kv).last_seen ≤ t

/-- The announcement of the spec's Scenario A host h1. -/
def annH1 : Announcement :=
  { id := "h1"
    address := "10.0.0.5"
    active := true
    provides := ["video"]
    operating_system := "Linux"
    release := "6.8.0"
    architecture := "x86_64" }

/-- The record of h1 after ingest at t = 0 and a refresh at t = 500
(Scenarios A and B). -/
def recH1 : PeerRecord := { storeAnnouncement annH1 0 with last_seen := 500 }

/-- A one-entry registry holding h1 (Scenario C's starting state). -/
def regH1 : Registry := [("h1", recH1)]

/-- A record whose last_seen lies one millisecond after the reaper's
captured scan timestamp of 1000 (refreshed after the capture). -/
def recFresh : PeerRecord := { storeAnnouncement annH1 1001 with first_seen := 900 }

/-- A one-entry registry holding the freshly refreshed record. -/
def regFresh : Registry := [("h1", recFresh)]

/-- A configuration whose active flag is false. -/
def cfgInactive : Config := { id := "h1", provides := [], active := false }

/-- Concrete uname metadata for the witnesses. -/
def sysX : SystemInfo :=
  { sysname := "Linux"
    nodename := "h1"
    release := "6.8.0"
    version := "v1"
    machine := "x86_64" }

theorem mapFind_mapInsert_self (reg : Registry) (id : String) (r : PeerRecord) :
    mapFind (mapInsert reg id r) id = some r := by
  induction reg with
  | nil => simp [mapInsert, mapFind]
  | cons kv rest ih =>
      obtain ⟨k, v⟩ := kv
      by_cases hk : k = id
      · simp [mapInsert, mapFind, hk]
      · simp [mapInsert, mapFind, hk, ih]

theorem mapFind_mapInsert_ne (reg : Registry) (id id' : String) (r : PeerRecord)
    (h : id' ≠ id) : mapFind (mapInsert reg id r) id' = mapFind reg id' := by
  have hne : ¬ id = id' := fun hc => h hc.symm
  induction reg with
  | nil => simp [mapInsert, mapFind, hne]
  | cons kv rest ih =>
      obtain ⟨k, v⟩ := kv
      by_cases hk : k = id
      · subst hk
        simp [mapInsert, mapFind, hne]
      · simp [mapInsert, mapFind, hk, ih]

theorem mapFind_mem (reg : Registry) (id : String) (w : PeerRecord)
    (h : mapFind reg id = some w) : (id, w) ∈ reg := by
  induction reg with
  | nil => simp [mapFind] at h
  | cons kv rest ih =>
      obtain ⟨k, v⟩ := kv
      by_cases hk : k = id
      · subst hk
        simp [mapFind] at h
        subst h
        exact List.mem_cons_self _ _
      · simp [mapFind, hk] at h
        exact List.mem_cons_of_mem _ (ih h)

theorem mapFind_eq_none_of_not_mem (reg : Registry) (id : String)
    (h : id ∉ regKeys reg) : mapFind reg id = none := by
  induction reg with
  | nil => rfl
  | cons kv rest ih =>
      obtain ⟨k, v⟩ := kv
      have hk : ¬ k = id := by
        intro hc
        exact h (by simp [regKeys, hc])
      have hrest : id ∉ regKeys rest := by
        intro hc
        exact h (by simp [regKeys]; right; simpa [regKeys] using hc)
      simp [mapFind, hk, ih hrest]

theorem mem_regKeys_of_find (reg : Registry) (id : String) (w : PeerRecord)
    (h : mapFind reg id = some w) : id ∈ regKeys reg := by
  have := mapFind_mem reg id w h
  exact List.mem_map_of_mem Prod.fst this

theorem regKeys_filter_subset (reg : Registry) (q : String × PeerRecord → Bool)
    (x : String) (h : x ∈ regKeys (reg.filter q)) : x ∈ regKeys reg := by
  induction reg with
  | nil => simp [regKeys] at h
  | cons kv rest ih =>
      by_cases hq : q kv
      · simp [List.filter_cons, hq, regKeys] at h
        rcases h with h | h
        · simp [regKeys, h]
        · exact List.mem_cons_of_mem _ (ih (by simpa [regKeys] using h))
      · simp [List.filter_cons, hq] at h
        exact List.mem_cons_of_mem _ (ih h)

theorem mapFind_filter (reg : Registry) (q : String × PeerRecord → Bool)
    (id : String) (p : PeerRecord) (hwf : RegWF reg) (hfind : mapFind reg id = some p) :
    mapFind (reg.filter q) id = if q (id, p) then some p else none := by
  induction reg with
  | nil => simp [mapFind] at hfind
  | cons kv rest ih =>
      obtain ⟨k, v⟩ := kv
      have hcons : k ∉ regKeys rest ∧ (regKeys rest).Nodup := by
        have hn : (k :: regKeys rest).Nodup := by simpa [RegWF, regKeys] using hwf
        exact List.nodup_cons.mp hn
      by_cases hk : k = id
      · subst hk
        have hv : v = p := by simpa [mapFind] using hfind
        subst hv
        by_cases hq : q (k, v) = true
        · simp [List.filter_cons, hq, mapFind]
        · have hnone : mapFind (rest.filter q) k = none := by
            apply mapFind_eq_none_of_not_mem
            intro hc
            exact hcons.1 (regKeys_filter_subset rest q k hc)
          simp [List.filter_cons, hq, hnone]
      · have hfind2 : mapFind rest id = some p := by simpa [mapFind, hk] using hfind
        have hih := ih hcons.2 hfind2
        by_cases hq : q (k, v) = true
        · simpa [List.filter_cons, hq, mapFind, hk] using hih
        · simpa [List.filter_cons, hq] using hih

theorem u64sub_eq_sub (a b : Nat) (ha : a < U64) (hb : b ≤ a) :
    u64sub a b = a - b := by
  have hbu : b < U64 := Nat.lt_of_le_of_lt hb ha
  simp only [u64sub, U64] at *
  omega

theorem u64sub_wrap (a b : Nat) (hb : b < U64) (hab : a < b) :
    u64sub a b = U64 - (b - a) := by
  have hau : a < U64 := Nat.lt_trans hab hb
  simp only [u64sub, U64] at *
  omega

theorem expire_participants_fst (now : Nat) (reg : Registry) :
    (expire_participants now reg).1 = reg.filter (fun kv => ! staleb now kv.2) := by
  induction reg with
  | nil => rfl
  | cons kv rest ih =>
      obtain ⟨id, p⟩ := kv
      by_cases h : staleb now p = true
      · simp [expire_participants, h, List.filter_cons, ih]
      · simp [expire_participants, h, List.filter_cons, ih,
              Bool.not_eq_true _ ▸ eq_false_of_ne_true h]

theorem expire_participants_snd (now : Nat) (reg : Registry) :
    (expire_participants now reg).2 =
      (reg.filter (fun kv => staleb now kv.2)).map
        (fun kv => send_update kv.2.address 1 kv.2.architecture now) := by
  induction reg with
  | nil => rfl
  | cons kv rest ih =>
      obtain ⟨id, p⟩ := kv
      by_cases h : staleb now p = true
      · simp [expire_participants, h, List.filter_cons, ih]
      · simp [expire_participants, h, List.filter_cons, ih]

theorem regKeys_mapInsert_of_none (reg : Registry) (id : String) (r : PeerRecord)
    (h : mapFind reg id = none) :
    regKeys (mapInsert reg id r) = regKeys reg ++ [id] := by
  induction reg with
  | nil => rfl
  | cons kv rest ih =>
      obtain ⟨k, v⟩ := kv
      by_cases hk : k = id
      · simp [mapFind, hk] at h
      · have h2 : mapFind rest id = none := by simpa [mapFind, hk] using h
        have h3 := ih h2
        simp only [regKeys] at h3
        simp [mapInsert, hk, regKeys, h3]

theorem regKeys_mapInsert_of_found (reg : Registry) (id : String) (r w : PeerRecord)
    (h : mapFind reg id = some w) :
    regKeys (mapInsert reg id r) = regKeys reg := by
  induction reg with
  | nil => simp [mapFind] at h
  | cons kv rest ih =>
      obtain ⟨k, v⟩ := kv
      by_cases hk : k = id
      · simp [mapInsert, hk, regKeys]
      · have h2 : mapFind rest id = some w := by simpa [mapFind, hk] using h
        have h3 := ih h2
        simp only [regKeys] at h3
        simp [mapInsert, hk, regKeys, h3]


theorem find_isSome_of_mem_regKeys (reg : Registry) (id : String)
    (h : id ∈ regKeys reg) : ∃ w, mapFind reg id = some w := by
  induction reg with
  | nil => simp [regKeys] at h
  | cons kv rest ih =>
      obtain ⟨k, v⟩ := kv
      by_cases hk : k = id
      · exact ⟨v, by simp [mapFind, hk]⟩
      · have h2 : id ∈ regKeys rest := by
          rcases (by simpa [regKeys] using h : id = k ∨ id ∈ List.map Prod.fst rest) with hh | hh
          · exact absurd hh.symm hk
          · simpa [regKeys] using hh
        rcases ih h2 with ⟨w, hw⟩
        exact ⟨w, by simp [mapFind, hk, hw]⟩

theorem RegWF_mapInsert (reg : Registry) (id : String) (r : PeerRecord)
    (hwf : RegWF reg) : RegWF (mapInsert reg id r) := by
  cases hfind : mapFind reg id with
  | some w =>
      have hkeys := regKeys_mapInsert_of_found reg id r w hfind
      simpa [RegWF, hkeys] using hwf
  | none =>
      have hkeys := regKeys_mapInsert_of_none reg id r hfind
      have hnotin : id ∉ regKeys reg := by
        intro hc
        rcases find_isSome_of_mem_regKeys reg id hc with ⟨w, hw⟩
        rw [hfind] at hw
        cases hw
      rw [RegWF, hkeys]
      refine List.Nodup.append hwf (List.nodup_singleton id) ?_
      intro x hx hx2
      rw [List.mem_singleton] at hx2
      subst hx2
      exact hnotin hx

theorem mem_mapInsert (reg : Registry) (id : String) (r : PeerRecord)
    (kv : String × PeerRecord) (h : kv ∈ mapInsert reg id r) :
    kv = (id, r) ∨ kv ∈ reg := by
  induction reg with
  | nil => simpa [mapInsert] using h
  | cons kv2 rest ih =>
      obtain ⟨k, v⟩ := kv2
      by_cases hk : k = id
      · subst hk
        rcases List.mem_cons.mp (by simpa [mapInsert] using h) with hh | hh
        · exact Or.inl (by simpa using hh)
        · exact Or.inr (List.mem_cons_of_mem _ hh)
      · rcases List.mem_cons.mp (by simpa [mapInsert, hk] using h) with hh | hh
        · exact Or.inr (by simp [hh])
        · rcases ih hh with hh2 | hh2
          · exact Or.inl hh2
          · exact Or.inr (List.mem_cons_of_mem _ hh2)

theorem regLastBelow_mono (reg : Registry) (t t2 : Nat) (h : regLastBelow reg t)
    (htt : t ≤ t2) : regLastBelow reg t2 :=
  fun kv hm => Nat.le_trans (h kv hm) htt

theorem report_preserves (ts : Nat) (a : Announcement) (reg : Registry)
    (hinv : Invariant reg) (hbelow : regLastBelow reg ts) :
    Invariant (report_participant ts a reg).2.1 ∧
    regLastBelow (report_participant ts a reg).2.1 ts := by
  obtain ⟨hwf, hfl⟩ := hinv
  cases hfind : mapFind reg a.id with
  | none =>
      simp only [report_participant, hfind]
      refine ⟨⟨RegWF_mapInsert reg a.id _ hwf, ?_⟩, ?_⟩
      · intro kv hm
        rcases mem_mapInsert _ _ _ _ hm with hh | hh
        · subst hh
          simp [storeAnnouncement]
        · exact hfl kv hh
      · intro kv hm
        rcases mem_mapInsert _ _ _ _ hm with hh | hh
        · subst hh
          simp [storeAnnouncement]
        · exact hbelow kv hh
  | some w =>
      simp only [report_participant, hfind]
      have hwmem : (a.id, w) ∈ reg := mapFind_mem reg a.id w hfind
      refine ⟨⟨RegWF_mapInsert reg a.id _ hwf, ?_⟩, ?_⟩
      · intro kv hm
        rcases mem_mapInsert _ _ _ _ hm with hh | hh
        · subst hh
          have h1 := hfl (a.id, w) hwmem
          have h2 := hbelow (a.id, w) hwmem
          simp only at h1 h2 ⊢
          exact Nat.le_trans h1 h2
        · exact hfl kv hh
      · intro kv hm
        rcases mem_mapInsert _ _ _ _ hm with hh | hh
        · subst hh
          simp
        · exact hbelow kv hh

theorem expire_preserves (now t : Nat) (reg : Registry)
    (hinv : Invariant reg) (hbelow : regLastBelow reg t) :
    Invariant (expire_participants now reg).1 ∧
    regLastBelow (expire_participants now reg).1 t := by
  obtain ⟨hwf, hfl⟩ := hinv
  rw [expire_participants_fst]
  refine ⟨⟨?_, ?_⟩, ?_⟩
  · show (List.map Prod.fst (reg.filter (fun kv => ! staleb now kv.2))).Nodup
    exact ((List.filter_sublist reg).map Prod.fst).nodup hwf
  · intro kv hm
    exact hfl kv (List.mem_of_mem_filter hm)
  · intro kv hm
    exact hbelow kv (List.mem_of_mem_filter hm)

theorem runOps_invariant_aux (ops : List (MonOp × Nat)) :
    ∀ (reg : Registry) (t : Nat), Invariant reg → regLastBelow reg t →
      List.Chain (fun x y => x ≤ y) t (ops.map Prod.snd) →
      Invariant (ops.foldl applyOp reg) := by
  induction ops with
  | nil =>
      intro reg t hinv _ _
      simpa using hinv
  | cons op rest ih =>
      intro reg t hinv hbelow hchain
      obtain ⟨o, ts⟩ := op
      have hts : t ≤ ts ∧ List.Chain (fun x y : Nat => x ≤ y) ts (rest.map Prod.snd) :=
        List.chain_cons.mp (by simpa using hchain)
      have hbelow2 : regLastBelow reg ts := regLastBelow_mono reg t ts hbelow hts.1
      cases o with
      | announce a =>
          have hp := report_preserves ts a reg hinv hbelow2
          simpa [applyOp] using ih _ ts hp.1 hp.2 hts.2
      | scan =>
          have hp := expire_preserves ts ts reg hinv hbelow2
          simpa [applyOp] using ih _ ts hp.1 hp.2 hts.2

/-- C1: for every announcement whose id is not yet in the registry,
report_participant stores the incoming record with first_seen and last_seen
both equal to the ingest timestamp, emits exactly one join notification
carrying the new peer's address and architecture (status code 1), and
returns PARTICIPANT_ADDED. -/
theorem report_new_inserts_and_notifies (ts : Nat) (a : Announcement) (reg : Registry)
    (habsent : mapFind reg a.id = none) :
    (report_participant ts a reg).1 = ParticipantStatus.PARTICIPANT_ADDED ∧
    mapFind (report_participant ts a reg).2.1 a.id = some
      { id := a.id
        address := a.address
        active := a.active
        provides := a.provides
        operating_system := a.operating_system
        release := a.release
        architecture := a.architecture
        first_seen := ts
        last_seen := ts } ∧
    (report_participant ts a reg).2.2 =
      [{ address := a.address
         status := 1
         provider_architecture := a.architecture
         timestamp := ts }] := by
  refine ⟨?_, ?_, ?_⟩
  · simp [report_participant, habsent]
  · simp [report_participant, habsent, storeAnnouncement, mapFind_mapInsert_self]
  · simp [report_participant, habsent, send_update]

/-- Witness for C1 at Scenario A: h1 announced into the empty registry at
t = 0. -/
theorem report_new_witness :
    mapFind ([] : Registry) annH1.id = none ∧
    (report_participant 0 annH1 []).1 = ParticipantStatus.PARTICIPANT_ADDED ∧
    mapFind (report_participant 0 annH1 []).2.1 annH1.id = some
      { id := annH1.id
        address := annH1.address
        active := annH1.active
        provides := annH1.provides
        operating_system := annH1.operating_system
        release := annH1.release
        architecture := annH1.architecture
        first_seen := 0
        last_seen := 0 } ∧
    (report_participant 0 annH1 []).2.2 =
      [{ address := annH1.address
         status := 1
         provider_architecture := annH1.architecture
         timestamp := 0 }] :=
  ⟨rfl, report_new_inserts_and_notifies 0 annH1 [] rfl⟩

/-- C2: for every announcement whose id is already present,
report_participant writes back the existing record with only last_seen set
to the new ingest timestamp (first_seen, address, active, architecture,
operating_system, release and provides keep their stored values and are not
refreshed from the new announcement), emits no notification, leaves every
other id's entry untouched, and returns PARTICIPANT_EXISTS. -/
theorem report_existing_refreshes_only (ts : Nat) (a : Announcement) (reg : Registry)
    (w : PeerRecord) (hfound : mapFind reg a.id = some w) :
    (report_participant ts a reg).1 = ParticipantStatus.PARTICIPANT_EXISTS ∧
    (report_participant ts a reg).2.2 = [] ∧
    mapFind (report_participant ts a reg).2.1 a.id = some { w with last_seen := ts } ∧
    ({ w with last_seen := ts } : PeerRecord).first_seen = w.first_seen ∧
    ({ w with last_seen := ts } : PeerRecord).address = w.address ∧
    ({ w with last_seen := ts } : PeerRecord).active = w.active ∧
    ({ w with last_seen := ts } : PeerRecord).architecture = w.architecture ∧
    ({ w with last_seen := ts } : PeerRecord).operating_system = w.operating_system ∧
    ({ w with last_seen := ts } : PeerRecord).release = w.release ∧
    ({ w with last_seen := ts } : PeerRecord).provides = w.provides ∧
    ({ w with last_seen := ts } : PeerRecord).last_seen = ts ∧
    (∀ id2, id2 ≠ a.id →
      mapFind (report_participant ts a reg).2.1 id2 = mapFind reg id2) := by
  refine ⟨?_, ?_, ?_, rfl, rfl, rfl, rfl, rfl, rfl, rfl, rfl, ?_⟩
  · simp [report_participant, hfound]
  · simp [report_participant, hfound]
  · simp [report_participant, hfound, mapFind_mapInsert_self]
  · intro id2 hne
    simp only [report_participant, hfound]
    exact mapFind_mapInsert_ne reg a.id id2 _ hne

/-- Witness for C2 at Scenario B: h1 re-announced at t = 500 into the
registry that ingested it at t = 0. -/
theorem report_existing_witness :
    mapFind [("h1", storeAnnouncement annH1 0)] annH1.id =
      some (storeAnnouncement annH1 0) ∧
    (report_participant 500 annH1 [("h1", storeAnnouncement annH1 0)]).1 =
      ParticipantStatus.PARTICIPANT_EXISTS ∧
    (report_participant 500 annH1 [("h1", storeAnnouncement annH1 0)]).2.2 = [] ∧
    mapFind (report_participant 500 annH1 [("h1", storeAnnouncement annH1 0)]).2.1
        annH1.id = some { storeAnnouncement annH1 0 with last_seen := 500 } :=
  have h := report_existing_refreshes_only 500 annH1
    [("h1", storeAnnouncement annH1 0)] (storeAnnouncement annH1 0) rfl
  ⟨rfl, h.1, h.2.1, h.2.2.1⟩

/-- C3: at a scan whose captured timestamp now is a valid uint64 value and
is at least the record's last_seen, expire_participants evicts the record
if and only if now - last_seen exceeds the 600 ms staleness threshold: the
id is absent from the registry immediately after the scan exactly in that
case and is kept with its record intact otherwise, and the scan's
notification list carries exactly one leave message per evicted record,
holding that record's address and architecture (status code 1, stamped with
the scan time). -/
theorem expire_evicts_iff_stale (now : Nat) (reg : Registry) (id : String)
    (p : PeerRecord) (hwf : RegWF reg) (hfind : mapFind reg id = some p)
    (hnow : now < U64) (hple : p.last_seen ≤ now) :
    (mapFind (expire_participants now reg).1 id = none ↔
      staleness_threshold < now - p.last_seen) ∧
    (now - p.last_seen ≤ staleness_threshold →
      mapFind (expire_participants now reg).1 id = some p) ∧
    (expire_participants now reg).2 =
      (reg.filter (fun kv => staleb now kv.2)).map
        (fun kv => send_update kv.2.address 1 kv.2.architecture now) := by
  have hage : u64sub now p.last_seen = now - p.last_seen :=
    u64sub_eq_sub now p.last_seen hnow hple
  have hfilter := mapFind_filter reg (fun kv => ! staleb now kv.2) id p hwf hfind
  rw [expire_participants_fst]
  refine ⟨?_, ?_, expire_participants_snd now reg⟩
  · by_cases hstale : staleness_threshold < now - p.last_seen
    · have hb : staleb now p = true := by
        simp [staleb, hage, hstale]
      rw [hfilter]
      simp [hb, hstale]
    · have hb : staleb now p = false := by
        simp [staleb, hage]
        omega
      rw [hfilter]
      simp [hb, hstale]
  · intro hfresh
    have hb : staleb now p = false := by
      simp [staleb, hage]
      omega
    rw [hfilter]
    simp [hb]

/-- Witness for C3 at Scenario C: with h1 last seen at t = 500, the scan at
t = 1200 evicts it and emits one leave message with its address and
architecture, while the scan at t = 1000 keeps it. -/
theorem expire_evicts_witness :
    RegWF regH1 ∧ mapFind regH1 "h1" = some recH1 ∧ recH1.last_seen ≤ 1200 ∧
    mapFind (expire_participants 1200 regH1).1 "h1" = none ∧
    (expire_participants 1200 regH1).2 =
      [{ address := "10.0.0.5"
         status := 1
         provider_architecture := "x86_64"
         timestamp := 1200 }] ∧
    mapFind (expire_participants 1000 regH1).1 "h1" = some recH1 :=
  have h12 := expire_evicts_iff_stale 1200 regH1 "h1" recH1
    (by unfold RegWF; decide) rfl (by decide) (by decide)
  have h10 := expire_evicts_iff_stale 1000 regH1 "h1" recH1
    (by unfold RegWF; decide) rfl (by decide) (by decide)
  ⟨by unfold RegWF; decide, rfl, by decide, h12.1.mpr (by decide),
   by rw [h12.2.2]; rfl, h10.2.1 (by decide)⟩

/-- C10: the reaper computes each record's age as the uint64 subtraction
current_timestamp - last_seen; for a record whose last_seen exceeds the
captured scan timestamp (refreshed after the capture, or under backward
clock skew) the subtraction wraps modulo 2 to the 64 to the value
2 to the 64 minus (last_seen - now), which lies far above the threshold
whenever the skew is below 2 to the 64 minus 600, so the record is evicted
immediately despite being fresh. -/
theorem expire_wraps_on_future_last_seen (now : Nat) (reg : Registry) (id : String)
    (p : PeerRecord) (hwf : RegWF reg) (hfind : mapFind reg id = some p)
    (hls : p.last_seen < U64) (hfut : now < p.last_seen)
    (hgap : p.last_seen - now < U64 - staleness_threshold) :
    u64sub now p.last_seen = U64 - (p.last_seen - now) ∧
    staleness_threshold < u64sub now p.last_seen ∧
    mapFind (expire_participants now reg).1 id = none := by
  have hwrap : u64sub now p.last_seen = U64 - (p.last_seen - now) :=
    u64sub_wrap now p.last_seen hls hfut
  have hstale : staleness_threshold < u64sub now p.last_seen := by
    rw [hwrap]
    simp only [staleness_threshold, U64] at *
    omega
  refine ⟨hwrap, hstale, ?_⟩
  have hfilter := mapFind_filter reg (fun kv => ! staleb now kv.2) id p hwf hfind
  have hb : staleb now p = true := by
    simp [staleb, hstale]
  rw [expire_participants_fst, hfilter]
  simp [hb]

/-- Witness for C10: a record refreshed to last_seen = 1001 scanned with a
captured timestamp of 1000 wraps to an age of 2 to the 64 minus 1 and is
evicted at once. -/
theorem expire_wraps_witness :
    RegWF regFresh ∧ mapFind regFresh "h1" = some recFresh ∧
    (1000 : Nat) < recFresh.last_seen ∧
    u64sub 1000 recFresh.last_seen = U64 - 1 ∧
    staleness_threshold < u64sub 1000 recFresh.last_seen ∧
    mapFind (expire_participants 1000 regFresh).1 "h1" = none :=
  have h := expire_wraps_on_future_last_seen 1000 regFresh "h1" recFresh
    (by unfold RegWF; decide) rfl (by decide) (by decide) (by decide)
  ⟨by unfold RegWF; decide, rfl, by decide, by rw [h.1]; rfl, h.2.1, h.2.2⟩

/-- C6: starting from the empty registry, every run of upserts
(report_participant) and reaper scans (expire_participants) whose
timestamps are non-decreasing (the wall clock read by get_timestamp)
preserves the registry invariant: at most one record per id and
first_seen at most last_seen for every stored record; an evicted record is
removed from the map outright, so no tombstone state exists. -/
theorem registry_invariant_preserved (ops : List (MonOp × Nat)) (h : Chrono ops) :
    Invariant (runOps ops) := by
  have hch : List.Chain (fun x y : Nat => x ≤ y) 0 (ops.map Prod.snd) := by
    cases hm : ops.map Prod.snd with
    | nil => exact List.Chain.nil
    | cons a l =>
        have h2 : List.Chain' (fun x y : Nat => x ≤ y) (a :: l) := by
          rw [Chrono, hm] at h
          exact h
        exact List.Chain.cons (Nat.zero_le a) h2
  have hinv0 : Invariant ([] : Registry) := by
    constructor
    · simp [RegWF, regKeys]
    · intro kv hm
      simp at hm
  have hbelow0 : regLastBelow ([] : Registry) 0 := by
    intro kv hm
    simp at hm
  exact runOps_invariant_aux ops [] 0 hinv0 hbelow0 hch

/-- Witness for C6: the run of Scenarios A, B and C (announce h1 at t = 0,
re-announce at t = 500, scan at t = 1200) keeps the invariant. -/
theorem registry_invariant_witness :
    Chrono [(MonOp.announce annH1, 0), (MonOp.announce annH1, 500), (MonOp.scan, 1200)] ∧
    Invariant (runOps
      [(MonOp.announce annH1, 0), (MonOp.announce annH1, 500), (MonOp.scan, 1200)]) :=
  ⟨by simp [Chrono, List.chain'_cons],
   registry_invariant_preserved _ (by simp [Chrono, List.chain'_cons])⟩

/-- C7: every notification the monitor emits carries the same status code
1, on the join path of report_participant and on the leave path of
expire_participants alike; hence a join message and a leave message for a
peer with the same address and architecture agree on every field except
the timestamp, and the two event kinds are indistinguishable by status
code. -/
theorem notifications_indistinguishable (ts now : Nat) (a : Announcement)
    (reg reg2 : Registry) (habsent : mapFind reg a.id = none) :
    (∀ m ∈ (report_participant ts a reg).2.2, m.status = 1) ∧
    (∀ m ∈ (expire_participants now reg2).2, m.status = 1) ∧
    (∀ mj ∈ (report_participant ts a reg).2.2,
      ∀ ml ∈ (expire_participants now reg2).2,
        mj.address = ml.address →
        mj.provider_architecture = ml.provider_architecture →
        mj = { ml with timestamp := mj.timestamp }) := by
  have hjoin : (report_participant ts a reg).2.2 =
      [send_update a.address 1 a.architecture ts] := by
    simp [report_participant, habsent]
  have hleave := expire_participants_snd now reg2
  refine ⟨?_, ?_, ?_⟩
  · intro m hm
    rw [hjoin] at hm
    rcases List.mem_singleton.mp hm with rfl
    rfl
  · intro m hm
    rw [hleave] at hm
    rcases List.mem_map.mp hm with ⟨kv, _, rfl⟩
    rfl
  · intro mj hmj ml hml haddr harch
    rw [hjoin] at hmj
    rcases List.mem_singleton.mp hmj with rfl
    rw [hleave] at hml
    rcases List.mem_map.mp hml with ⟨kv, _, rfl⟩
    simp [send_update] at haddr harch ⊢
    exact ⟨haddr, harch⟩

/-- Witness for C7: the join message of h1's first announcement and the
leave messages of the scan that evicts it all carry status code 1. -/
theorem notifications_witness :
    mapFind ([] : Registry) annH1.id = none ∧
    (∀ m ∈ (report_participant 0 annH1 []).2.2, m.status = 1) ∧
    (∀ m ∈ (expire_participants 1200 regH1).2, m.status = 1) :=
  have h := notifications_indistinguishable 0 1200 annH1 [] regH1 rfl
  ⟨rfl, h.1, h.2.1⟩

/-- C4 (the code contradicts this claim): receive_thread parses each
datagram with json::parse and installs no handler around it, so a datagram
of unparseable bytes ends the loop body in the propagated parse exception
instead of being dropped with the loop continuing; the registry is not
touched on that path, but the listener does not keep processing. -/
theorem receive_malformed_propagates (ts : Nat) (reg : Registry) :
    receive_step ts reg none =
      Except.error "json parse exception propagates out of receive_thread" := rfl

/-- C5 counterexample: on the insert path of report_participant, the
property that every network send of the trace runs with the participant
mutex released evaluates to false — the send_update dispatch runs with the
lock held. -/
theorem lock_not_held_across_send_refuted :
    ((report_participant_trace true).all
      (fun s => ! (decide (s.act = MonAction.netSend) && s.lockHeld))) = false := by
  decide

/-- C5 amended: the registry lock IS held across the notification
dispatch: in the insert path of report_participant and in the eviction
path of an expire_participants iteration, the only network send of the
trace runs between lock acquisition and release, with lockHeld true. -/
theorem send_update_runs_under_lock :
    (report_participant_trace true).filter
        (fun s => decide (s.act = MonAction.netSend)) =
      [{ act := MonAction.netSend, lockHeld := true }] ∧
    (expire_iteration_trace true).filter
        (fun s => decide (s.act = MonAction.netSend)) =
      [{ act := MonAction.netSend, lockHeld := true }] := by
  decide

/-- C8 counterexample: for a configuration whose active flag is false, the
advertisement built by create_advertisement still carries active = true —
the active field is not the configured active flag. -/
theorem advertisement_active_not_configured :
    jsonGet (create_advertisement cfgInactive sysX "10.0.0.5") "active" =
      some (Json.bool true) ∧
    cfgInactive.active = false ∧
    jsonGet (create_advertisement cfgInactive sysX "10.0.0.5") "active" ≠
      some (Json.bool cfgInactive.active) := by
  refine ⟨rfl, rfl, ?_⟩
  intro h
  have h2 : (some (Json.bool true) : Option Json) = some (Json.bool false) := h
  simp at h2

/-- The provides loop of create_advertisement: push_back after push_back
onto an existing array appends the pushed elements in order. -/
theorem jsonPushBack_foldl_arr (l : List String) :
    ∀ acc : List Json,
      l.foldl (fun pj s => jsonPushBack pj (Json.str s)) (Json.arr acc) =
        Json.arr (acc ++ l.map Json.str) := by
  induction l with
  | nil =>
      intro acc
      simp
  | cons s rest ih =>
      intro acc
      rw [List.foldl_cons]
      have h1 : jsonPushBack (Json.arr acc) (Json.str s) = Json.arr (acc ++ [Json.str s]) := rfl
      rw [h1, ih (acc ++ [Json.str s]), List.append_assoc]
      rfl

/-- The provides loop of create_advertisement started from null: the value
stays null when no service is pushed and becomes the array of the pushed
services otherwise. -/
theorem jsonPushBack_foldl_null (l : List String) :
    l.foldl (fun pj s => jsonPushBack pj (Json.str s)) Json.null =
      if l.isEmpty then Json.null else Json.arr (l.map Json.str) := by
  cases l with
  | nil => rfl
  | cons s rest =>
      rw [List.foldl_cons]
      have h1 : jsonPushBack Json.null (Json.str s) = Json.arr [Json.str s] := rfl
      rw [h1, jsonPushBack_foldl_arr rest [Json.str s]]
      simp

/-- C8 amended: every advertisement includes exactly the seven
self-description keys — id from the configuration, the interface address,
active as the hardcoded constant true (the configured active flag is not
consulted), provides as JSON null when no configured entry carries a
service key and otherwise as the array of the configured services, and
operating_system, release and architecture from uname — and never includes
a first_seen or last_seen key; those are receiver-assigned. -/
theorem advertisement_fields (cfg : Config) (sys : SystemInfo) (address : String) :
    jsonKeys (create_advertisement cfg sys address) =
      ["id", "address", "active", "provides", "operating_system", "release",
       "architecture"] ∧
    jsonGet (create_advertisement cfg sys address) "id" = some (Json.str cfg.id) ∧
    jsonGet (create_advertisement cfg sys address) "address" =
      some (Json.str address) ∧
    jsonGet (create_advertisement cfg sys address) "active" =
      some (Json.bool true) ∧
    jsonGet (create_advertisement cfg sys address) "provides" =
      some (if (cfg.provides.filterMap ProvidesEntry.service).isEmpty
            then Json.null
            else Json.arr
              ((cfg.provides.filterMap ProvidesEntry.service).map Json.str)) ∧
    jsonGet (create_advertisement cfg sys address) "operating_system" =
      some (Json.str sys.sysname) ∧
    jsonGet (create_advertisement cfg sys address) "release" =
      some (Json.str sys.release) ∧
    jsonGet (create_advertisement cfg sys address) "architecture" =
      some (Json.str sys.machine) ∧
    jsonGet (create_advertisement cfg sys address) "first_seen" = none ∧
    jsonGet (create_advertisement cfg sys address) "last_seen" = none := by
  refine ⟨rfl, rfl, rfl, rfl, ?_, rfl, rfl, rfl, rfl, rfl⟩
  show some ((cfg.provides.filterMap ProvidesEntry.service).foldl
      (fun pj s => jsonPushBack pj (Json.str s)) Json.null) = _
  rw [jsonPushBack_foldl_null]

/-- C9: decoding the encoded payload of any announcement record yields the
identical record — the round-trip law for the announcement schema between
the sender's construction and the receiver's typed field extraction. -/
theorem announcement_roundtrip (a : Announcement) :
    decodeAnnouncement (encodeAnnouncement a) = some a := by
  have hp : ∀ l : List String, strListOfJson (l.map Json.str) = some l := by
    intro l
    induction l with
    | nil => rfl
    | cons s rest ih => simp [strListOfJson, ih]
  have hq : asStrList (jsonGet (encodeAnnouncement a) "provides") = some a.provides :=
    hp a.provides
  unfold decodeAnnouncement
  rw [hq]
  rfl
